import Mathlib

/-!
A shallow embedding of the whatsapp-backend repository's core:
`scripts/process_payloads.js` (payload ingest) and `server.js`
(REST endpoints and the change-stream event translator), faithful to the
JavaScript/MongoDB semantics the code relies on.

Conventions used throughout:
* JavaScript `undefined` and `null` on string-valued fields are both
  modelled as `none`: the Node Mongo driver serializes `undefined` to BSON
  null by default (`ignoreUndefined: false`), and a query `{f: null}`
  matches documents where `f` is null or missing alike.
* `new Date()` wall-clock values are modelled by a `Nat` parameter `now`.
* An invalid `Date` (built from a `NaN` produced by `parseInt`) is
  modelled as `none : Option Int`.
* A Mongo collection is a list of documents in natural (insertion) order;
  `updateOne` modifies the first matching document, `updateMany` all of
  them, and an upsert-insert appends.
-/

/-- JavaScript `a || b` on two possibly absent strings: `undefined`,
`null` and the empty string are falsy. -/
def jsOr : Option String → Option String → Option String
  | some s, b => if s = "" then b else some s
  | none, b => b

/-- JavaScript `a || d` where the fallback `d` is a string literal. -/
def jsOrD (a : Option String) (d : String) : String :=
  match a with
  | some s => if s = "" then d else s
  | none => d

/-- The numeric value of a digit character in the given base, as
JavaScript `parseInt` reads digits. -/
def jsDigit (base : Nat) (c : Char) : Option Nat :=
  if '0' ≤ c ∧ c ≤ '9' then
    let d := c.toNat - '0'.toNat
    if d < base then some d else none
  else if 'a' ≤ c ∧ c ≤ 'z' then
    let d := c.toNat - 'a'.toNat + 10
    if d < base then some d else none
  else if 'A' ≤ c ∧ c ≤ 'Z' then
    let d := c.toNat - 'A'.toNat + 10
    if d < base then some d else none
  else none

/-- Longest digit prefix, `none` when there is no digit at all. -/
def jsDigits (base : Nat) : List Char → Nat → Bool → Option Nat
  | [], acc, seen => if seen then some acc else none
  | c :: rest, acc, seen =>
    match jsDigit base c with
    | some d => jsDigits base rest (acc * base + d) true
    | none => if seen then some acc else none

def isJsSpace (c : Char) : Bool :=
  c = ' ' || c = '\t' || c = '\n' || c = '\r'

/-- JavaScript `parseInt(s)` with no radix argument: skip leading
whitespace, read an optional sign, auto-detect a `0x`/`0X` hex prefix,
then read the longest digit prefix; `none` models `NaN`. -/
def parseIntJS (s : String) : Option Int :=
  let cs := s.toList.dropWhile isJsSpace
  let signAndRest : Int × List Char :=
    match cs with
    | '-' :: r => (-1, r)
    | '+' :: r => (1, r)
    | _ => (1, cs)
  let baseAndRest : Nat × List Char :=
    match signAndRest.2 with
    | '0' :: 'x' :: r => (16, r)
    | '0' :: 'X' :: r => (16, r)
    | _ => (10, signAndRest.2)
  (jsDigits baseAndRest.1 baseAndRest.2 0 false).map
    (fun n => signAndRest.1 * (n : Int))

/-- `new Date(parseInt(ts) * 1000)` on the raw optional timestamp string;
`none` models the invalid date obtained from a missing or unparsable
timestamp (`parseInt(undefined)` is `NaN`). -/
def parseTs : Option String → Option Int
  | none => none
  | some s => (parseIntJS s).map (· * 1000)

/-- Sort key of a stored timestamp: BSON serializes an invalid `Date`
(`NaN` milliseconds) as epoch 0. -/
def tsval : Option Int → Int
  | none => 0
  | some n => n

/-- A document of the `processed_messages` collection, as built by
`process_payloads.js` and `server.js`. `from` is a reserved word in Lean,
hence `from_` (and likewise `to_`); `mongoId` is the store-assigned `_id` (modelled as a `Nat`
fixed when the document is generated). -/
structure Rec where
  wa_id : Option String
  from_ : Option String
  to_ : String
  msg_id : Option String
  meta_msg_id : Option String
  direction : String
  text : String
  status : Option String
  timestamp : Option Int
  createdAt : Nat
  updatedAt : Nat
  mongoId : Nat
  deriving DecidableEq, Repr

/-- Everything of a record except its mutable fields
(`status`, `updatedAt`). -/
def skel (r : Rec) : Rec := { r with status := none, updatedAt := 0 }

/-- A record up to its `updatedAt` timestamp. -/
def eraseU (r : Rec) : Rec := { r with updatedAt := 0 }

def skelL (db : List Rec) : List Rec := db.map skel

def eraseUL (db : List Rec) : List Rec := db.map eraseU

/-! ### The raw payload shapes read by `process_payloads.js` -/

structure TextObj where
  body : Option String
  deriving DecidableEq, Repr

structure CtxObj where
  id : Option String
  deriving DecidableEq, Repr

/-- One element of a `messages` array (either payload shape). -/
structure Msg where
  from_ : Option String
  id : Option String
  timestamp : Option String
  text : Option TextObj
  body : Option String
  to_ : Option String
  context : Option CtxObj
  deriving DecidableEq, Repr

/-- One element of a `statuses` array. -/
structure StatusItem where
  id : Option String
  meta_msg_id : Option String
  status : Option String
  deriving DecidableEq, Repr

structure Profile where
  name : Option String
  deriving DecidableEq, Repr

structure Contact where
  profile : Option Profile
  deriving DecidableEq, Repr

structure MetadataObj where
  phone_number_id : Option String
  deriving DecidableEq, Repr

/-- `change.value` of the nested provider envelope. -/
structure Value where
  messages : Option (List Msg)
  statuses : Option (List StatusItem)
  contacts : Option (List Contact)
  metadata : Option MetadataObj
  deriving DecidableEq, Repr

structure ChangeObj where
  value : Option Value
  deriving DecidableEq, Repr

structure EntryObj where
  changes : Option (List ChangeObj)
  deriving DecidableEq, Repr

structure MetaDataObj where
  entry : Option (List EntryObj)
  deriving DecidableEq, Repr

/-- One element of a parsed payload file's top-level array. -/
structure Payload where
  metaData : Option MetaDataObj
  entry : Option (List EntryObj)
  messages : Option (List Msg)
  statuses : Option (List StatusItem)
  deriving DecidableEq, Repr

/-- The message document built in the nested provider-envelope branch of
`process_payloads.js` (`run`, lines 67-78). -/
def mkDocNested (value : Value) (m : Msg) (now : Nat) : Rec :=
  { wa_id := m.from_
    from_ := jsOr (((value.contacts.bind List.head?).bind Contact.profile).bind Profile.name) m.from_
    to_ := jsOrD (value.metadata.bind MetadataObj.phone_number_id) ""
    msg_id := m.id
    meta_msg_id := jsOr (m.context.bind CtxObj.id) none
    direction :=
      if m.from_ = some (jsOrD (value.metadata.bind MetadataObj.phone_number_id) "") then
        "outbound"
      else "inbound"
    text := jsOrD (m.text.bind TextObj.body) (jsOrD m.body "")
    status := some "received"
    timestamp := parseTs m.timestamp
    createdAt := now
    updatedAt := now
    mongoId := now }

/-- The message document built in the flat top-level branch
(`run`, lines 105-116); `biz` is `process.env.BUSINESS_NUMBER`. -/
def mkDocFlat (m : Msg) (biz : Option String) (now : Nat) : Rec :=
  { wa_id := m.from_
    from_ := m.from_
    to_ := jsOrD m.to_ ""
    msg_id := m.id
    meta_msg_id := jsOr (m.context.bind CtxObj.id) none
    direction := if m.from_ = some (jsOrD biz "") then "outbound" else "inbound"
    text := jsOrD (m.text.bind TextObj.body) ""
    status := some "received"
    timestamp := parseTs m.timestamp
    createdAt := now
    updatedAt := now
    mongoId := now }

/-- `const id = s.id || s.meta_msg_id` — the match key of a status item. -/
def resolvedId (s : StatusItem) : Option String := jsOr s.id s.meta_msg_id

/-! ### The idempotent store -/

/-- `updateOne` semantics: modify the first document matching `p`
(a no-op when none matches). -/
def updateFirst (p : Rec → Bool) (f : Rec → Rec) : List Rec → List Rec
  | [] => []
  | r :: rest => if p r then f r :: rest else r :: updateFirst p f rest

/-- The upsert query `{msg_id: doc.msg_id}`. -/
def matchUps (mid : Option String) (r : Rec) : Bool := r.msg_id == mid

/-- The status-patch query `{$or: [{msg_id: id}, {meta_msg_id: id}]}`. -/
def pmatch (id : Option String) (r : Rec) : Bool :=
  r.msg_id == id || r.meta_msg_id == id

/-- `updateOne({msg_id: doc.msg_id}, {$setOnInsert: doc,
$set: {updatedAt: now}}, {upsert: true})`: on a match only `updatedAt`
changes; otherwise the document is inserted. -/
def upsertMessage (db : List Rec) (doc : Rec) (now : Nat) : List Rec :=
  if db.any (matchUps doc.msg_id) then
    updateFirst (matchUps doc.msg_id) (fun r => { r with updatedAt := now }) db
  else
    db ++ [{ doc with updatedAt := now }]

/-- `updateOne({$or: [{msg_id: id}, {meta_msg_id: id}]},
{$set: {status, updatedAt: now}})`. -/
def applyStatusPatch (db : List Rec) (id : Option String) (st : Option String)
    (now : Nat) : List Rec :=
  updateFirst (pmatch id) (fun r => { r with status := st, updatedAt := now }) db

/-- One store write performed by the ingest loop. -/
inductive Op where
  | upsertM (doc : Rec)
  | patchS (id : Option String) (st : Option String)
  deriving DecidableEq, Repr

def applyOp (now : Nat) (db : List Rec) : Op → List Rec
  | Op.upsertM doc => upsertMessage db doc now
  | Op.patchS id st => applyStatusPatch db id st now

/-- The ingest loop: apply the writes of a payload batch in order. -/
def runOps (now : Nat) (db : List Rec) : List Op → List Rec
  | [] => db
  | o :: rest => runOps now (applyOp now db o) rest

/-- The writes produced by one `change.value` object: its `messages`
array first, then its `statuses` array. -/
def opsOfValue (v : Value) (now : Nat) : List Op :=
  (v.messages.getD []).map (fun m => Op.upsertM (mkDocNested v m now))
    ++ (v.statuses.getD []).map (fun s => Op.patchS (resolvedId s) s.status)

/-- The writes of one payload: the nested branch iterates
`entry[].changes[].value`; the flat branch reads top-level `messages`
and `statuses`. `payload.metaData?.entry || payload.entry` is array-typed
here, so present values (even empty arrays) are truthy. -/
def opsOfPayload (p : Payload) (biz : Option String) (now : Nat) : List Op :=
  match (p.metaData.bind MetaDataObj.entry) <|> p.entry with
  | some entries =>
    entries.flatMap (fun e =>
      (e.changes.getD []).flatMap (fun c =>
        opsOfValue (c.value.getD ⟨none, none, none, none⟩) now))
  | none =>
    (p.messages.getD []).map (fun m => Op.upsertM (mkDocFlat m biz now))
      ++ (p.statuses.getD []).map (fun s => Op.patchS (resolvedId s) s.status)

/-- All writes of one parsed payload file (a JSON array of payloads). -/
def opsOfFile (ps : List Payload) (biz : Option String) (now : Nat) : List Op :=
  ps.flatMap (fun p => opsOfPayload p biz now)

/-- Ingest of one payload file starting from store `db`. -/
def ingestFile (db : List Rec) (ps : List Payload) (biz : Option String)
    (now : Nat) : List Rec :=
  runOps now db (opsOfFile ps biz now)

/-! ### The server's operations (`server.js`) -/

/-- `updateMany({wa_id, direction: 'inbound', status: {$ne: 'read'}},
{$set: {status: 'read', updatedAt: now}})` — the read-marking performed by
`GET /api/messages/:wa_id` (lines 127-130). `$ne: 'read'` also matches a
null status. -/
def markConversationRead (db : List Rec) (wa : String) (now : Nat) : List Rec :=
  db.map (fun r =>
    if r.wa_id == some wa && r.direction == "inbound" && !(r.status == some "read") then
      { r with status := some "read", updatedAt := now }
    else r)

/-- The ascending `{timestamp: 1, createdAt: 1}` sort order. Mongo sorts
are modelled by a stable sort (`List.insertionSort`: documents with equal
keys keep their insertion order). -/
def leMsg (a b : Rec) : Prop :=
  tsval a.timestamp < tsval b.timestamp ∨
    (tsval a.timestamp = tsval b.timestamp ∧ a.createdAt ≤ b.createdAt)

instance : DecidableRel leMsg := fun _ _ =>
  inferInstanceAs (Decidable (_ ∨ _))

/-- `GET /api/messages/:wa_id`: returns the conversation's documents
sorted by `{timestamp: 1, createdAt: 1}` (snapshot taken before the
update) and then marks every inbound unread document of the conversation
as read. -/
def getMessages (db : List Rec) (wa : String) (now : Nat) : List Rec × List Rec :=
  ((db.filter (fun r => r.wa_id == some wa)).insertionSort leMsg,
   markConversationRead db wa now)

/-- One row of the `GET /api/chats` aggregation output. The `_id` and
`wa_id` fields of the output always coincide (both come from the group
key), so one field models both. -/
structure ChatEntry where
  wa_id : Option String
  name : Option String
  lastMessage : String
  lastTimestamp : Option Int
  unreadCount : Nat
  deriving DecidableEq, Repr

/-- The descending `{timestamp: -1}` order over documents. -/
def geTs (a b : Rec) : Prop := tsval b.timestamp ≤ tsval a.timestamp

instance : DecidableRel geTs := fun _ _ =>
  inferInstanceAs (Decidable (_ ≤ _))

/-- The descending `{lastTimestamp: -1}` order over group rows. -/
def geEntry (a b : ChatEntry) : Prop :=
  tsval b.lastTimestamp ≤ tsval a.lastTimestamp

instance : DecidableRel geEntry := fun _ _ =>
  inferInstanceAs (Decidable (_ ≤ _))

/-- Group keys in order of first appearance (`seen` accumulates the keys
already produced). -/
def firstKeys : List (Option String) → List (Option String) → List (Option String)
  | [], _ => []
  | k :: rest, seen =>
    if k ∈ seen then firstKeys rest seen else k :: firstKeys rest (k :: seen)

/-- The `$cond` counted by the aggregation's `unreadCount`:
`direction = 'inbound'` and `status ≠ 'read'`. -/
def isUnread (r : Rec) : Bool :=
  r.direction == "inbound" && !(r.status == some "read")

/-- The `$group` stage applied to the `$sort`ed documents, for key `k`:
`$first` picks the fields of the group's first document in pipeline
order; the group of a key occurring in the pipeline is never empty (the
empty case below is dead). -/
def mkEntry (sorted : List Rec) (k : Option String) : ChatEntry :=
  match sorted.filter (fun r => r.wa_id == k) with
  | [] => { wa_id := k, name := none, lastMessage := "", lastTimestamp := none, unreadCount := 0 }
  | r :: rest =>
    { wa_id := k
      name := r.from_
      lastMessage := r.text
      lastTimestamp := r.timestamp
      unreadCount := ((r :: rest).filter isUnread).length }

/-- `GET /api/chats` (lines 89-118): the aggregation
`[$sort {timestamp: -1}, $group by wa_id ($first name/text/timestamp,
unread count), $sort {lastTimestamp: -1}]`. Mongo leaves the relative
order of equal sort keys unspecified; the embedding uses a stable sort,
so ties keep insertion order. -/
def listChats (db : List Rec) : List ChatEntry :=
  ((firstKeys ((db.insertionSort geTs).map Rec.wa_id) []).map
    (mkEntry (db.insertionSort geTs))).insertionSort geEntry

/-- `POST /api/status` (lines 168-184): 400 when `id` or `status` is
falsy, otherwise `updateOne` on the `$or` query; 404 when nothing
matched (the store is then unchanged). -/
def updateStatusEndpoint (db : List Rec) (id status : String) (now : Nat) :
    Nat × List Rec :=
  if id == "" || status == "" then (400, db)
  else if db.any (pmatch (some id)) then
    (200, applyStatusPatch db (some id) (some status) now)
  else (404, db)

/-! ### The change-stream event translator (`server.js` `init`) -/

/-- The value emitted as `msg_id` of a `message_status` event:
a string id or the store-internal `_id`. -/
inductive EmitId where
  | str (s : String)
  | oid (n : Nat)
  deriving DecidableEq, Repr

/-- `doc.msg_id || doc.meta_msg_id || doc._id`. -/
def emitId (r : Rec) : EmitId :=
  match jsOr r.msg_id (jsOr r.meta_msg_id none) with
  | some s => EmitId.str s
  | none => EmitId.oid r.mongoId

/-- `doc.status || null`. -/
def emitStatus (r : Rec) : Option String := jsOr r.status none

/-- One change observed on the collection's change stream
(`fullDocument: 'updateLookup'` supplies the post-mutation document). -/
inductive StreamChange where
  | insert (fullDocument : Rec)
  | update (fullDocument : Rec)
  | replace (fullDocument : Rec)
  | delete
  | other
  deriving DecidableEq, Repr

/-- An event broadcast to every connected socket by `io.emit`. -/
inductive OutEvent where
  | new_message (chatId : Option String) (message : Rec)
  | message_status (chatId : Option String) (msg_id : EmitId)
      (status : Option String) (full : Rec)
  deriving DecidableEq, Repr

/-- The change-stream callback (lines 47-63): the events broadcast for
one observed change. -/
def eventsFor : StreamChange → List OutEvent
  | StreamChange.insert d => [OutEvent.new_message d.wa_id d]
  | StreamChange.update d =>
    [OutEvent.message_status d.wa_id (emitId d) (emitStatus d) d]
  | StreamChange.replace d =>
    [OutEvent.message_status d.wa_id (emitId d) (emitStatus d) d]
  | StreamChange.delete => []
  | StreamChange.other => []

/-! ### Re-ingest bookkeeping -/

/-- Checked over the first ingest run: every status patch either matches
a document when first applied, or still matches nothing in the final
store (it is not an orphan patch that a re-ingest would suddenly apply). -/
def noOrphan (now : Nat) (db : List Rec) : List Op → Bool
  | [] => true
  | Op.upsertM doc :: rest => noOrphan now (upsertMessage db doc now) rest
  | Op.patchS id st :: rest =>
    (db.any (pmatch id) ||
      !((runOps now (applyStatusPatch db id st now) rest).any (pmatch id)))
      && noOrphan now (applyStatusPatch db id st now) rest

/-! ### Concrete sample data used by witnesses and counterexamples -/

/-- A stored inbound message `m1` of conversation `111`. -/
def recM1 : Rec :=
  { wa_id := some "111", from_ := some "111", to_ := "", msg_id := some "m1",
    meta_msg_id := none, direction := "inbound", text := "hi",
    status := some "received", timestamp := some 1000000,
    createdAt := 1, updatedAt := 1, mongoId := 1 }

/-- A raw message whose timestamp string is not parsable as an integer. -/
def mBad : Msg :=
  { from_ := some "222", id := some "mX", timestamp := some "oops",
    text := none, body := none, to_ := none, context := none }

/-- A raw message whose sender is the configured business number. -/
def mNested : Msg :=
  { from_ := some "biz", id := some "m1", timestamp := some "1000",
    text := some { body := some "hi" }, body := none, to_ := none,
    context := none }

/-- A nested-envelope `value` whose `metadata.phone_number_id` differs
from the configured business number. -/
def vNested : Value :=
  { messages := some [mNested], statuses := none, contacts := none,
    metadata := some { phone_number_id := some "pni" } }

/-! ### C2 — direction of a normalized message -/

/-- C2 counterexample: with the configured business identity
`BUSINESS_NUMBER = "biz"`, a nested-envelope message whose sender is
`"biz"` is still normalized as `inbound`, because the nested branch
compares the sender against the payload's own
`value.metadata.phone_number_id` (here `"pni"`), not against
`BUSINESS_NUMBER`. So `direction = outbound ↔ sender = business identity`
fails on this input. -/
theorem C2_counterexample :
    ¬(((mkDocNested vNested mNested 1).direction = "outbound")
      ↔ mNested.from_ = some "biz") := by
  decide

/-- C2 amended: a flat-shape message is `outbound` iff its sender equals
`BUSINESS_NUMBER || ''`; a nested-envelope message is `outbound` iff its
sender equals the payload's `value.metadata.phone_number_id || ''` (the
configured business identity is not consulted there); otherwise the
direction is `inbound`. -/
theorem C2_direction_amended :
    ∀ (v : Value) (m : Msg) (biz : Option String) (t1 t2 : Nat),
      ((mkDocNested v m t1).direction = "outbound"
        ↔ m.from_ = some (jsOrD (v.metadata.bind MetadataObj.phone_number_id) ""))
      ∧ ((mkDocNested v m t1).direction = "inbound"
        ↔ m.from_ ≠ some (jsOrD (v.metadata.bind MetadataObj.phone_number_id) ""))
      ∧ ((mkDocFlat m biz t2).direction = "outbound" ↔ m.from_ = some (jsOrD biz ""))
      ∧ ((mkDocFlat m biz t2).direction = "inbound" ↔ m.from_ ≠ some (jsOrD biz "")) := by
  intro v m biz t1 t2
  refine ⟨?_, ?_, ?_, ?_⟩ <;> simp only [mkDocNested, mkDocFlat] <;> split <;> simp_all

/-! ### C8 — a status item with no id at all -/

/-- A status item with no id fields at all. -/
def sNoId : StatusItem := { id := none, meta_msg_id := none, status := some "read" }

/-- A flat payload carrying only the id-less status item. -/
def pNoId : Payload :=
  { metaData := none, entry := none, messages := none, statuses := some [sNoId] }

/-- C8: a status item carrying neither `id` nor `meta_msg_id` resolves to
an absent match key, and the `$or` query built from it matches documents
whose `meta_msg_id` is null: the ingest patch generated for such an item
flips the status of the unrelated message `m1`. -/
theorem C8_degenerate_patch_mutates :
    resolvedId sNoId = none
    ∧ opsOfPayload pNoId none 7 = [Op.patchS none (some "read")]
    ∧ applyStatusPatch [recM1] none (some "read") 7
      = [{ recM1 with status := some "read", updatedAt := 7 }]
    ∧ recM1.meta_msg_id = none ∧ recM1.msg_id = some "m1"
    ∧ recM1.status = some "received" := by
  decide

/-! ### C9 — unparsable timestamps are ingested anyway -/

/-- C9: a message whose timestamp is absent or not parsable as an integer
is not skipped: both normalizers produce an invalid `occurred_at`
(`new Date(NaN)`, modelled as `none`) and the document is upserted into
the store regardless. -/
theorem C9_unparsable_timestamp_ingested :
    ∀ (m : Msg) (biz : Option String) (v : Value) (db : List Rec) (t : Nat),
      parseTs m.timestamp = none →
      db.any (matchUps m.id) = false →
      (mkDocFlat m biz t).timestamp = none
      ∧ (mkDocNested v m t).timestamp = none
      ∧ upsertMessage db (mkDocFlat m biz t) t
          = db ++ [{ mkDocFlat m biz t with updatedAt := t }] := by
  intro m biz v db t h1 h2
  refine ⟨h1, h1, ?_⟩
  simp [upsertMessage, show (mkDocFlat m biz t).msg_id = m.id from rfl, h2]

/-- C9 witness: the concrete message `mBad` (timestamp `"oops"`) is
upserted into the empty store with an invalid timestamp. -/
theorem C9_witness :
    parseTs mBad.timestamp = none
    ∧ (([] : List Rec).any (matchUps mBad.id)) = false
    ∧ ((mkDocFlat mBad none 3).timestamp = none
      ∧ (mkDocNested ⟨none, none, none, none⟩ mBad 3).timestamp = none
      ∧ upsertMessage [] (mkDocFlat mBad none 3) 3
          = [] ++ [{ mkDocFlat mBad none 3 with updatedAt := 3 }]) :=
  ⟨by decide, by decide,
   C9_unparsable_timestamp_ingested mBad none ⟨none, none, none, none⟩ [] 3
     (by decide) (by decide)⟩

/-! ### C10 — status values are stored unvalidated -/

/-- C10: neither `POST /api/status` nor the ingest status patch validates
the status value against the documented enum: `"banana"` and `"zzz"` are
stored verbatim, and `"banana"` lies outside
`{received, sent, delivered, read}`. -/
theorem C10_status_not_validated :
    (updateStatusEndpoint [recM1] "m1" "banana" 5).1 = 200
    ∧ (updateStatusEndpoint [recM1] "m1" "banana" 5).2
        = [{ recM1 with status := some "banana", updatedAt := 5 }]
    ∧ applyStatusPatch [recM1] (some "m1") (some "zzz") 6
        = [{ recM1 with status := some "zzz", updatedAt := 6 }]
    ∧ (some "banana" : Option String)
        ∉ [some "received", some "sent", some "delivered", some "read"] := by
  decide

/-! ### C6 — the change-stream translator -/

/-- C6 counterexample: a status update that stored the empty string emits
`null` (`doc.status || null`) as the event's status, not the record's new
status, so the `StatusChanged` event does not carry the new status on
this mutation. -/
theorem C6_counterexample :
    eventsFor (StreamChange.update { recM1 with status := some "" })
      ≠ [OutEvent.message_status recM1.wa_id (EmitId.str "m1") (some "")
          { recM1 with status := some "" }] := by
  decide

/-- C6 amended: an insert emits exactly one `new_message` event with the
conversation id and the full document; an update or replace emits exactly
one `message_status` event with the conversation id, the document's
`msg_id` (falling back to `meta_msg_id`, then the store-internal `_id`,
when absent or empty), `doc.status || null` (which is the new status
whenever that status is a non-empty string), and the full post-mutation
document; other change kinds emit nothing. -/
theorem C6_events_amended :
    ∀ d : Rec,
      eventsFor (StreamChange.insert d) = [OutEvent.new_message d.wa_id d]
      ∧ eventsFor (StreamChange.update d)
          = [OutEvent.message_status d.wa_id (emitId d) (emitStatus d) d]
      ∧ eventsFor (StreamChange.replace d)
          = [OutEvent.message_status d.wa_id (emitId d) (emitStatus d) d]
      ∧ (∀ s : String, d.status = some s → s ≠ "" → emitStatus d = some s)
      ∧ (∀ s : String, d.msg_id = some s → s ≠ "" → emitId d = EmitId.str s)
      ∧ eventsFor StreamChange.delete = [] ∧ eventsFor StreamChange.other = [] := by
  intro d
  refine ⟨rfl, rfl, rfl, ?_, ?_, rfl, rfl⟩
  · intro s hs hne
    simp [emitStatus, jsOr, hs, hne]
  · intro s hs hne
    simp [emitId, jsOr, hs, hne]

/-- C6 witness: the amended statement evaluated on the concrete stored
document `recM1`. -/
theorem C6_witness :
    eventsFor (StreamChange.update recM1)
      = [OutEvent.message_status recM1.wa_id (emitId recM1) (emitStatus recM1) recM1]
    ∧ emitStatus recM1 = some "received"
    ∧ emitId recM1 = EmitId.str "m1" :=
  ⟨(C6_events_amended recM1).2.1,
   (C6_events_amended recM1).2.2.2.1 "received" rfl (by decide),
   (C6_events_amended recM1).2.2.2.2.1 "m1" rfl (by decide)⟩

/-! ### Helper lemmas about `updateFirst` -/

theorem updateFirst_all_false (p : Rec → Bool) (f : Rec → Rec) :
    ∀ db : List Rec, db.any p = false → updateFirst p f db = db := by
  intro db
  induction db with
  | nil => intro _; rfl
  | cons r rest ih =>
    intro h
    simp only [List.any_cons, Bool.or_eq_false_iff] at h
    simp [updateFirst, h.1, ih h.2]

theorem updateFirst_length (p : Rec → Bool) (f : Rec → Rec) :
    ∀ db : List Rec, (updateFirst p f db).length = db.length := by
  intro db
  induction db with
  | nil => rfl
  | cons r rest ih =>
    simp only [updateFirst]
    split <;> simp [ih]

theorem getElem?_updateFirst_skel (p : Rec → Bool) (f : Rec → Rec)
    (hf : ∀ r, skel (f r) = skel r) :
    ∀ (db : List Rec) (i : Nat),
      ((updateFirst p f db)[i]?).map skel = (db[i]?).map skel := by
  intro db
  induction db with
  | nil => intro i; rfl
  | cons r rest ih =>
    intro i
    simp only [updateFirst]
    split
    · cases i with
      | zero => simp [hf]
      | succ j => simp
    · cases i with
      | zero => simp
      | succ j => simpa using ih j

/-! ### C3 — an orphan status patch is a no-op -/

/-- C3: a status patch matching no document leaves the store untouched
(`updateOne` with `modifiedCount: 0` is not an error), the ingest loop
simply continues with the remaining writes, the record count is
unchanged, and when the target message is upserted later it enters the
store with the status the message normalizer set (always `received`),
not the orphan patch's status. -/
theorem C3_orphan_patch_is_noop :
    ∀ (db : List Rec) (id st : Option String) (rest : List Op)
      (t t2 : Nat) (doc : Rec),
      db.any (pmatch id) = false →
      applyStatusPatch db id st t = db
      ∧ runOps t db (Op.patchS id st :: rest) = runOps t db rest
      ∧ (applyStatusPatch db id st t).length = db.length
      ∧ (doc.msg_id = id →
          upsertMessage db doc t2 = db ++ [{ doc with updatedAt := t2 }])
      ∧ (∀ (v : Value) (m : Msg) (b : Option String) (t3 : Nat),
          (mkDocNested v m t3).status = some "received"
          ∧ (mkDocFlat m b t3).status = some "received") := by
  intro db id st rest t t2 doc h
  have hid : applyStatusPatch db id st t = db :=
    updateFirst_all_false (pmatch id) _ db h
  refine ⟨hid, ?_, by rw [hid], ?_, fun v m b t3 => ⟨rfl, rfl⟩⟩
  · show runOps t (applyStatusPatch db id st t) rest = runOps t db rest
    rw [hid]
  · intro hd
    have hups : db.any (matchUps doc.msg_id) = false := by
      rw [hd]
      simp only [List.any_eq_false] at h ⊢
      intro r hr
      have h2 : pmatch id r = false := by simpa using h r hr
      simp only [pmatch, Bool.or_eq_false_iff] at h2
      simpa [matchUps] using h2.1
    simp [upsertMessage, hups]

/-- A message document whose id matches nothing in `[recM1]`. -/
def docNope : Rec :=
  { recM1 with msg_id := some "nope", text := "later", mongoId := 2 }

/-- C3 witness: the concrete orphan patch `{id: "nope", status: "read"}`
against the store `[recM1]`, followed by the arrival of message
`"nope"`. -/
theorem C3_witness :
    ([recM1].any (pmatch (some "nope"))) = false
    ∧ (applyStatusPatch [recM1] (some "nope") (some "read") 4 = [recM1]
      ∧ runOps 4 [recM1] [Op.patchS (some "nope") (some "read")] = runOps 4 [recM1] []
      ∧ (applyStatusPatch [recM1] (some "nope") (some "read") 4).length = [recM1].length
      ∧ (docNope.msg_id = some "nope" →
          upsertMessage [recM1] docNope 5 = [recM1] ++ [{ docNope with updatedAt := 5 }])
      ∧ (∀ (v : Value) (m : Msg) (b : Option String) (t3 : Nat),
          (mkDocNested v m t3).status = some "received"
          ∧ (mkDocFlat m b t3).status = some "received")) :=
  ⟨by decide,
   C3_orphan_patch_is_noop [recM1] (some "nope") (some "read") [] 4 5 docNope (by decide)⟩

/-! ### C7 — only `status` and `updatedAt` ever change -/

/-- One of the four mutating core operations of C7. -/
inductive CoreOp where
  | ingestUpsert (doc : Rec)
  | ingestPatch (id : Option String) (st : Option String)
  | apiStatus (id st : String)
  | markRead (wa : String)
  deriving DecidableEq, Repr

/-- The store mutation performed by each core operation. -/
def applyCore (db : List Rec) (now : Nat) : CoreOp → List Rec
  | CoreOp.ingestUpsert doc => upsertMessage db doc now
  | CoreOp.ingestPatch id st => applyStatusPatch db id st now
  | CoreOp.apiStatus id st => (updateStatusEndpoint db id st now).2
  | CoreOp.markRead wa => markConversationRead db wa now

/-- C7: no core operation (ingest upsert, ingest status patch,
`POST /api/status`, read-marking) changes anything of an existing
document except `status` and `updatedAt`: the skeleton (including
`wa_id`, the conversation id) of every existing position is preserved,
and no document is removed. -/
theorem C7_immutable_fields :
    ∀ (db : List Rec) (now : Nat) (o : CoreOp) (i : Nat),
      i < db.length →
      ((applyCore db now o)[i]?).map skel = (db[i]?).map skel
      ∧ db.length ≤ (applyCore db now o).length := by
  intro db now o i hi
  cases o with
  | ingestUpsert doc =>
    constructor
    · simp only [applyCore, upsertMessage]
      split
      · exact getElem?_updateFirst_skel (matchUps doc.msg_id)
          (fun r => { r with updatedAt := now }) (fun r => rfl) db i
      · rw [List.getElem?_append_left hi]
    · simp only [applyCore, upsertMessage]
      split
      · rw [updateFirst_length]
      · simp
  | ingestPatch id st =>
    exact ⟨getElem?_updateFirst_skel (pmatch id)
        (fun r => { r with status := st, updatedAt := now }) (fun r => rfl) db i,
      le_of_eq (updateFirst_length _ _ db).symm⟩
  | apiStatus id st =>
    constructor
    · simp only [applyCore, updateStatusEndpoint]
      split
      · rfl
      · split
        · exact getElem?_updateFirst_skel (pmatch (some id))
            (fun r => { r with status := some st, updatedAt := now }) (fun r => rfl) db i
        · rfl
    · simp only [applyCore, updateStatusEndpoint]
      split
      · rfl
      · split
        · exact le_of_eq (updateFirst_length _ _ db).symm
        · rfl
  | markRead wa =>
    constructor
    · simp only [applyCore, markConversationRead, List.getElem?_map]
      cases db[i]? with
      | none => rfl
      | some r =>
        simp only [Option.map]
        congr 1
        split <;> rfl
    · simp only [applyCore, markConversationRead, List.length_map]
      exact le_refl _

/-- C7 witness: marking conversation `111` as read preserves the
skeleton of the stored document at position 0. -/
theorem C7_witness :
    ((applyCore [recM1] 9 (CoreOp.markRead "111"))[0]?).map skel
        = (([recM1] : List Rec)[0]?).map skel
    ∧ ([recM1] : List Rec).length
        ≤ (applyCore [recM1] 9 (CoreOp.markRead "111")).length :=
  C7_immutable_fields [recM1] 9 (CoreOp.markRead "111") 0 (by decide)

/-! ### Helper lemmas for the `GET /api/chats` aggregation -/

instance : IsTotal Rec geTs := ⟨fun _ _ => le_total _ _⟩

instance : IsTrans Rec geTs := ⟨fun _ _ _ h1 h2 => le_trans h2 h1⟩

instance : IsTotal ChatEntry geEntry := ⟨fun _ _ => le_total _ _⟩

instance : IsTrans ChatEntry geEntry := ⟨fun _ _ _ h1 h2 => le_trans h2 h1⟩

theorem mem_of_mem_firstKeys :
    ∀ (l seen : List (Option String)) (k : Option String),
      k ∈ firstKeys l seen → k ∈ l := by
  intro l
  induction l with
  | nil => intro seen k h; cases h
  | cons k0 rest ih =>
    intro seen k h
    simp only [firstKeys] at h
    split at h
    · exact List.mem_cons_of_mem _ (ih _ _ h)
    · rcases List.mem_cons.1 h with h1 | h1
      · exact h1 ▸ List.mem_cons_self _ _
      · exact List.mem_cons_of_mem _ (ih _ _ h1)

theorem mem_firstKeys_of_mem :
    ∀ (l seen : List (Option String)) (k : Option String),
      k ∈ l → k ∉ seen → k ∈ firstKeys l seen := by
  intro l
  induction l with
  | nil => intro seen k h; cases h
  | cons k0 rest ih =>
    intro seen k hk hs
    simp only [firstKeys]
    split
    · rename_i h0
      rcases List.mem_cons.1 hk with h1 | h1
      · exact absurd (h1 ▸ h0) hs
      · exact ih _ _ h1 hs
    · rcases List.mem_cons.1 hk with h1 | h1
      · exact h1 ▸ List.mem_cons_self _ _
      · by_cases hkk : k = k0
        · exact hkk ▸ List.mem_cons_self _ _
        · exact List.mem_cons_of_mem _ (ih _ _ h1 (by simp [List.mem_cons, hkk, hs]))

theorem mkEntry_wa_id (s : List Rec) (k : Option String) :
    (mkEntry s k).wa_id = k := by
  unfold mkEntry
  split <;> rfl

/-- Characterization of every row produced by the `GET /api/chats`
aggregation: its displayed fields come from a document of its group with
maximal sort key, and its unread count counts the group's inbound
non-read documents. -/
theorem listChats_mem (db : List Rec) :
    ∀ e ∈ listChats db,
      (∃ r ∈ db, r.wa_id = e.wa_id ∧ e.name = r.from_ ∧ e.lastMessage = r.text
        ∧ e.lastTimestamp = r.timestamp
        ∧ ∀ q ∈ db, q.wa_id = e.wa_id → tsval q.timestamp ≤ tsval r.timestamp)
      ∧ e.unreadCount
          = (db.filter (fun r => r.wa_id == e.wa_id && isUnread r)).length := by
  intro e he
  unfold listChats at he
  rw [List.mem_insertionSort] at he
  obtain ⟨k, hk, hek⟩ := List.mem_map.1 he
  have hkin : k ∈ (db.insertionSort geTs).map Rec.wa_id := mem_of_mem_firstKeys _ _ _ hk
  obtain ⟨r0, hr0, hr0k⟩ := List.mem_map.1 hkin
  have hgmem : r0 ∈ (db.insertionSort geTs).filter (fun r => r.wa_id == k) :=
    List.mem_filter.2 ⟨hr0, by simp [hr0k]⟩
  cases hg : (db.insertionSort geTs).filter (fun r => r.wa_id == k) with
  | nil => rw [hg] at hgmem; cases hgmem
  | cons rh gt =>
    have heq : mkEntry (db.insertionSort geTs) k =
        { wa_id := k, name := rh.from_, lastMessage := rh.text,
          lastTimestamp := rh.timestamp,
          unreadCount := ((rh :: gt).filter isUnread).length } := by
      unfold mkEntry
      rw [hg]
    have hrh_mem_g : rh ∈ (db.insertionSort geTs).filter (fun r => r.wa_id == k) := by
      rw [hg]
      exact List.mem_cons_self _ _
    have hrh_db : rh ∈ db := (List.mem_insertionSort geTs).1 (List.mem_of_mem_filter hrh_mem_g)
    have hrh_k : rh.wa_id = k := by
      have h2 := (List.mem_filter.1 hrh_mem_g).2
      simpa using h2
    have hgsorted : List.Pairwise geTs (rh :: gt) := by
      rw [← hg]
      exact (List.sorted_insertionSort geTs db).filter _
    have hmax : ∀ q ∈ db, q.wa_id = k → tsval q.timestamp ≤ tsval rh.timestamp := by
      intro q hq hqk
      have hq_g : q ∈ (db.insertionSort geTs).filter (fun r => r.wa_id == k) :=
        List.mem_filter.2 ⟨(List.mem_insertionSort geTs).2 hq, by simp [hqk]⟩
      rw [hg] at hq_g
      rcases List.mem_cons.1 hq_g with h1 | h1
      · rw [h1]
      · exact (List.pairwise_cons.1 hgsorted).1 q h1
    have hcount : ((rh :: gt).filter isUnread).length
        = (db.filter (fun r => r.wa_id == k && isUnread r)).length := by
      rw [← hg, List.filter_filter]
      have hpred : ∀ a : Rec, (isUnread a && (a.wa_id == k)) = ((a.wa_id == k) && isUnread a) :=
        fun a => Bool.and_comm _ _
      simp only [hpred]
      exact ((List.perm_insertionSort geTs db).filter _).length_eq
    subst hek
    rw [heq]
    refine ⟨⟨rh, hrh_db, hrh_k, rfl, rfl, rfl, ?_⟩, ?_⟩
    · intro q hq hqk
      exact hmax q hq hqk
    · exact hcount

/-! ### C5 — the conversation listing -/

/-- A first stored message of conversation `111`. -/
def recA : Rec :=
  { wa_id := some "111", from_ := some "Alice", to_ := "", msg_id := some "a1",
    meta_msg_id := none, direction := "inbound", text := "a",
    status := some "read", timestamp := some 1000000,
    createdAt := 1, updatedAt := 1, mongoId := 1 }

/-- A later stored message of the same conversation with the same
`timestamp` but a larger `createdAt`. -/
def recB : Rec :=
  { recA with
    msg_id := some "b1", text := "b", createdAt := 2,
    updatedAt := 2, mongoId := 2 }

/-- C5 counterexample: two documents of one conversation share the same
`occurred_at` but have different `created_at`; the aggregation `$sort`s
on `timestamp` only (no `createdAt` tie-break), so the reported body is
that of the earlier-inserted record `"a"`, not of the record with the
most recent `created_at` (`"b"`) as the claim requires. -/
theorem C5_counterexample :
    recA.timestamp = recB.timestamp
    ∧ recA.createdAt < recB.createdAt
    ∧ (listChats [recA, recB]).map ChatEntry.lastMessage = ["a"]
    ∧ ¬((listChats [recA, recB]).map ChatEntry.lastMessage = [recB.text]) := by
  decide

/-- C5 amended: every aggregation row takes its display name, body and
`occurred_at` from a document of its `wa_id` group whose `occurred_at`
sort key is maximal in the group — ties are not broken by `created_at`
(the store's equal-key order is unspecified; the embedding's stable sort
keeps the earliest-inserted document first) —, its unread count is the
number of the group's inbound documents with status ≠ `read`, every
stored conversation yields a row, and rows are ordered by most-recent
`occurred_at` descending. -/
theorem C5_listChats_amended :
    ∀ db : List Rec,
      (∀ e ∈ listChats db,
        (∃ r ∈ db, r.wa_id = e.wa_id ∧ e.name = r.from_ ∧ e.lastMessage = r.text
          ∧ e.lastTimestamp = r.timestamp
          ∧ ∀ q ∈ db, q.wa_id = e.wa_id → tsval q.timestamp ≤ tsval r.timestamp)
        ∧ e.unreadCount
            = (db.filter (fun r => r.wa_id == e.wa_id && isUnread r)).length)
      ∧ (∀ r ∈ db, ∃ e ∈ listChats db, e.wa_id = r.wa_id)
      ∧ List.Sorted geEntry (listChats db) := by
  intro db
  refine ⟨listChats_mem db, ?_, ?_⟩
  · intro r hr
    have hk : r.wa_id ∈ (db.insertionSort geTs).map Rec.wa_id :=
      List.mem_map_of_mem _ ((List.mem_insertionSort geTs).2 hr)
    refine ⟨mkEntry (db.insertionSort geTs) r.wa_id, ?_, mkEntry_wa_id _ _⟩
    unfold listChats
    rw [List.mem_insertionSort]
    exact List.mem_map_of_mem _ (mem_firstKeys_of_mem _ _ _ hk (by simp))
  · unfold listChats
    exact List.sorted_insertionSort geEntry _

/-- C5 witness: the amended characterization evaluated on the concrete
two-document store. -/
theorem C5_witness :
    ((∃ r ∈ [recA, recB], r.wa_id = some "111" ∧ some "Alice" = r.from_
        ∧ "a" = r.text ∧ some 1000000 = r.timestamp
        ∧ ∀ q ∈ [recA, recB], q.wa_id = some "111"
            → tsval q.timestamp ≤ tsval r.timestamp)
      ∧ (0 : Nat)
          = (([recA, recB].filter (fun r => r.wa_id == some "111" && isUnread r)).length))
    ∧ (∃ e ∈ listChats [recA, recB], e.wa_id = recA.wa_id) := by
  have h := C5_listChats_amended [recA, recB]
  have he :
      ({ wa_id := some "111", name := some "Alice", lastMessage := "a",
         lastTimestamp := some 1000000, unreadCount := 0 } : ChatEntry)
        ∈ listChats [recA, recB] := by decide
  exact ⟨h.1 _ he, h.2.1 recA (by decide)⟩

/-! ### C4 — fetching a conversation marks it read -/

/-- C4: after `GET /api/messages/:wa_id` completes, every inbound
document of that conversation that was not already `read` has status
`read` (with a fresh `updatedAt`), every other document is untouched,
and the `GET /api/chats` unread count of that conversation is 0. -/
theorem C4_get_messages_marks_read :
    ∀ (db : List Rec) (wa : String) (t : Nat),
      (∀ (i : Nat) (r : Rec), db[i]? = some r →
        r.wa_id = some wa → r.direction = "inbound" → r.status ≠ some "read" →
        ((getMessages db wa t).2)[i]?
          = some { r with status := some "read", updatedAt := t })
      ∧ (∀ (i : Nat) (r : Rec), db[i]? = some r →
        ¬(r.wa_id = some wa ∧ r.direction = "inbound" ∧ r.status ≠ some "read") →
        ((getMessages db wa t).2)[i]? = some r)
      ∧ (∀ e ∈ listChats (getMessages db wa t).2,
          e.wa_id = some wa → e.unreadCount = 0) := by
  intro db wa t
  have hmap : (getMessages db wa t).2 = markConversationRead db wa t := rfl
  refine ⟨?_, ?_, ?_⟩
  · intro i r hi h1 h2 h3
    rw [hmap]
    simp only [markConversationRead, List.getElem?_map, hi, Option.map]
    split
    · rfl
    · rename_i hcond
      exact absurd (by simp [h1, h2, h3]) hcond
  · intro i r hi hneg
    rw [hmap]
    simp only [markConversationRead, List.getElem?_map, hi, Option.map]
    split
    · rename_i hcond
      simp only [Bool.and_eq_true, beq_iff_eq, Bool.not_eq_eq_eq_not, Bool.not_true,
        beq_eq_false_iff_ne] at hcond
      exact absurd ⟨hcond.1.1, hcond.1.2, hcond.2⟩ hneg
    · rfl
  · intro e he hewa
    have hcnt := (listChats_mem _ e he).2
    rw [hcnt, hewa, List.length_eq_zero, List.filter_eq_nil_iff]
    intro r hr
    rw [hmap] at hr
    obtain ⟨r0, hr0, hfr⟩ := List.mem_map.1 hr
    by_cases hc : (r0.wa_id == some wa && r0.direction == "inbound"
        && !(r0.status == some "read")) = true
    · rw [← hfr, if_pos hc]
      simp [isUnread]
    · rw [← hfr, if_neg hc]
      intro hcontra
      apply hc
      simp only [isUnread, Bool.and_eq_true] at hcontra
      simp only [Bool.and_eq_true]
      exact ⟨⟨hcontra.1, hcontra.2.1⟩, hcontra.2.2⟩

/-- C4 witness: fetching conversation `111` flips the unread stored
document `recM1` to `read`, and the conversation then reports an unread
count of 0. -/
theorem C4_witness :
    ((getMessages [recM1] "111" 9).2)[0]?
      = some { recM1 with status := some "read", updatedAt := 9 } :=
  (C4_get_messages_marks_read [recM1] "111" 9).1 0 recM1 rfl rfl rfl (by decide)

/-! ### C1 — machinery: first-match indices and pointwise views -/

/-- The status stored at position `i` (if any). -/
def statusAt (l : List Rec) (i : Nat) : Option (Option String) :=
  (l[i]?).map Rec.status

/-- Index of the first element matched by `p` (the document `updateOne`
touches). -/
def firstIdx {α : Type} (p : α → Bool) : List α → Option Nat
  | [] => none
  | a :: rest => if p a then some 0 else (firstIdx p rest).map (· + 1)

theorem firstIdx_map {α β : Type} (q : β → Bool) (f : α → β) :
    ∀ l : List α, firstIdx q (l.map f) = firstIdx (fun a => q (f a)) l := by
  intro l
  induction l with
  | nil => rfl
  | cons a rest ih => simp only [List.map_cons, firstIdx, ih]

theorem firstIdx_eq_none_iff {α : Type} (p : α → Bool) :
    ∀ l : List α, firstIdx p l = none ↔ l.any p = false := by
  intro l
  induction l with
  | nil => simp [firstIdx]
  | cons a rest ih =>
    simp only [firstIdx, List.any_cons]
    by_cases h : p a <;> simp [h, ih]

theorem any_eq_firstIdx_isSome {α : Type} (p : α → Bool) :
    ∀ l : List α, l.any p = (firstIdx p l).isSome := by
  intro l
  induction l with
  | nil => rfl
  | cons a rest ih =>
    simp only [firstIdx, List.any_cons]
    by_cases h : p a <;> simp [h, ih]

theorem firstIdx_lt_length {α : Type} (p : α → Bool) :
    ∀ (l : List α) (j : Nat), firstIdx p l = some j → j < l.length := by
  intro l
  induction l with
  | nil => intro j h; cases h
  | cons a rest ih =>
    intro j h
    simp only [firstIdx] at h
    split at h
    · cases h
      simp
    · cases hr : firstIdx p rest with
      | none => rw [hr] at h; cases h
      | some j0 =>
        rw [hr] at h
        simp only [Option.map_some'] at h
        cases h
        have := ih j0 hr
        simpa using Nat.succ_lt_succ this

theorem firstIdx_append_left {α : Type} (p : α → Bool) :
    ∀ (l1 l2 : List α) (j : Nat),
      firstIdx p l1 = some j → firstIdx p (l1 ++ l2) = some j := by
  intro l1
  induction l1 with
  | nil => intro l2 j h; cases h
  | cons a rest ih =>
    intro l2 j h
    simp only [firstIdx, List.cons_append, List.append_eq] at h ⊢
    split at h
    · rename_i ha
      rw [if_pos ha]
      exact h
    · rename_i ha
      rw [if_neg ha]
      cases hr : firstIdx p rest with
      | none => rw [hr] at h; cases h
      | some j0 =>
        rw [hr] at h
        simp only [Option.map_some'] at h
        rw [ih l2 j0 hr]
        simpa using h

theorem firstIdx_append_of_none {α : Type} (p : α → Bool) :
    ∀ (l1 l2 : List α), l1.any p = false →
      firstIdx p (l1 ++ l2) = (firstIdx p l2).map (· + l1.length) := by
  intro l1
  induction l1 with
  | nil => intro l2 _; simp
  | cons a rest ih =>
    intro l2 h
    simp only [List.any_cons, Bool.or_eq_false_iff] at h
    simp only [List.cons_append, firstIdx, List.append_eq, h.1, Bool.false_eq_true, if_false,
      ih l2 h.2]
    cases firstIdx p l2 with
    | none => rfl
    | some j =>
      simp only [Option.map_some', List.length_cons]
      congr 1

theorem getElem?_updateFirst_eq (p : Rec → Bool) (f : Rec → Rec) :
    ∀ (db : List Rec) (j : Nat), firstIdx p db = some j →
      (updateFirst p f db)[j]? = (db[j]?).map f := by
  intro db
  induction db with
  | nil => intro j h; cases h
  | cons r rest ih =>
    intro j h
    simp only [firstIdx] at h
    simp only [updateFirst]
    split at h
    · rename_i hr
      cases h
      simp [hr]
    · rename_i hr
      rw [if_neg hr]
      cases hfi : firstIdx p rest with
      | none => rw [hfi] at h; cases h
      | some j0 =>
        rw [hfi] at h
        simp only [Option.map_some'] at h
        cases h
        simpa using ih j0 hfi

theorem getElem?_updateFirst_ne (p : Rec → Bool) (f : Rec → Rec) :
    ∀ (db : List Rec) (j i : Nat), firstIdx p db = some j → i ≠ j →
      (updateFirst p f db)[i]? = db[i]? := by
  intro db
  induction db with
  | nil => intro j i h; cases h
  | cons r rest ih =>
    intro j i h hij
    simp only [firstIdx] at h
    simp only [updateFirst]
    split at h
    · rename_i hr
      cases h
      rw [if_pos hr]
      cases i with
      | zero => exact absurd rfl hij
      | succ i0 => simp
    · rename_i hr
      rw [if_neg hr]
      cases hfi : firstIdx p rest with
      | none => rw [hfi] at h; cases h
      | some j0 =>
        rw [hfi] at h
        simp only [Option.map_some'] at h
        cases h
        cases i with
        | zero => simp
        | succ i0 =>
          have : i0 ≠ j0 := by omega
          simpa using ih j0 i0 hfi this

theorem skelL_updateFirst (p : Rec → Bool) (f : Rec → Rec)
    (hf : ∀ r, skel (f r) = skel r) :
    ∀ db : List Rec, skelL (updateFirst p f db) = skelL db := by
  intro db
  induction db with
  | nil => rfl
  | cons r rest ih =>
    simp only [updateFirst]
    split
    · simp [skelL, hf]
    · simp only [skelL, List.map_cons] at ih ⊢
      rw [ih]

theorem statusAt_updateFirst (p : Rec → Bool) (f : Rec → Rec)
    (hf : ∀ r, (f r).status = r.status) :
    ∀ (db : List Rec) (i : Nat), statusAt (updateFirst p f db) i = statusAt db i := by
  intro db
  induction db with
  | nil => intro i; rfl
  | cons r rest ih =>
    intro i
    simp only [updateFirst]
    split
    · cases i with
      | zero => simp [statusAt, hf]
      | succ i0 => simp [statusAt]
    · cases i with
      | zero => simp [statusAt]
      | succ i0 =>
        simpa [statusAt] using ih i0

theorem firstIdx_skel_congr (q : Rec → Bool) (hq : ∀ r, q (skel r) = q r)
    (l1 l2 : List Rec) (h : skelL l1 = skelL l2) :
    firstIdx q l1 = firstIdx q l2 := by
  have e1 : firstIdx q l1 = firstIdx q (skelL l1) := by
    rw [skelL, firstIdx_map]
    congr 1
    funext r
    rw [hq]
  have e2 : firstIdx q l2 = firstIdx q (skelL l2) := by
    rw [skelL, firstIdx_map]
    congr 1
    funext r
    rw [hq]
  rw [e1, e2, h]

theorem any_skel_congr (q : Rec → Bool) (hq : ∀ r, q (skel r) = q r)
    (l1 l2 : List Rec) (h : skelL l1 = skelL l2) :
    l1.any q = l2.any q := by
  rw [any_eq_firstIdx_isSome, any_eq_firstIdx_isSome, firstIdx_skel_congr q hq l1 l2 h]

theorem eraseU_eq_of (a b : Rec) (h1 : skel a = skel b) (h2 : a.status = b.status) :
    eraseU a = eraseU b := by
  cases a
  cases b
  simp_all [skel, eraseU]

theorem eraseUL_eq_of :
    ∀ (a b : List Rec), skelL a = skelL b → (∀ i, statusAt a i = statusAt b i) →
      eraseUL a = eraseUL b := by
  intro a
  induction a with
  | nil =>
    intro b h1 _
    have hb : b.map skel = [] := by simpa [skelL] using h1.symm
    rw [List.map_eq_nil_iff.1 hb]
  | cons r rest ih =>
    intro b h1 h2
    cases b with
    | nil => simp [skelL] at h1
    | cons r2 rest2 =>
      simp only [skelL, List.map_cons, List.cons.injEq] at h1
      have hst : r.status = r2.status := by
        have := h2 0
        simpa [statusAt] using this
      have htail : eraseUL rest = eraseUL rest2 := by
        refine ih rest2 ?_ ?_
        · simpa [skelL] using h1.2
        · intro i
          simpa [statusAt] using h2 (i + 1)
      simp only [eraseUL, List.map_cons, List.cons.injEq]
      exact ⟨eraseU_eq_of r r2 h1.1 hst, by simpa [eraseUL] using htail⟩

theorem statusAt_append_left :
    ∀ (l1 l2 : List Rec) (i : Nat), i < l1.length →
      statusAt (l1 ++ l2) i = statusAt l1 i := by
  intro l1 l2 i hi
  simp [statusAt, List.getElem?_append_left hi]

/-- `applyOp` either leaves the skeleton list unchanged or appends one
skeleton. -/
theorem skelL_applyOp (t : Nat) (db : List Rec) (o : Op) :
    skelL (applyOp t db o) = skelL db
    ∨ ∃ d, skelL (applyOp t db o) = skelL db ++ [d] := by
  cases o with
  | upsertM doc =>
    simp only [applyOp, upsertMessage]
    split
    · exact Or.inl (skelL_updateFirst (matchUps doc.msg_id)
        (fun r => { r with updatedAt := t }) (fun r => rfl) db)
    · exact Or.inr ⟨skel { doc with updatedAt := t }, by simp [skelL]⟩
  | patchS id st =>
    exact Or.inl (skelL_updateFirst (pmatch id)
      (fun r => { r with status := st, updatedAt := t }) (fun r => rfl) db)

/-- The skeleton list only grows along an ingest run: the initial
skeletons are a prefix of the final ones. -/
theorem skelL_runOps :
    ∀ (ops : List Op) (t : Nat) (db : List Rec),
      ∃ tail, skelL (runOps t db ops) = skelL db ++ tail := by
  intro ops
  induction ops with
  | nil =>
    intro t db
    exact ⟨[], by simp [runOps]⟩
  | cons o rest ih =>
    intro t db
    obtain ⟨tail, htail⟩ := ih t (applyOp t db o)
    rcases skelL_applyOp t db o with h | ⟨d, h⟩
    · exact ⟨tail, by simpa [runOps, h] using htail⟩
    · refine ⟨[d] ++ tail, ?_⟩
      simp only [runOps]
      rw [htail, h]
      simp

theorem firstIdx_skelL (q : Rec → Bool) (hq : ∀ r, q (skel r) = q r) (l : List Rec) :
    firstIdx q (skelL l) = firstIdx q l := by
  rw [skelL, firstIdx_map]
  congr 1
  funext r
  rw [hq]

theorem any_skelL (q : Rec → Bool) (hq : ∀ r, q (skel r) = q r) (l : List Rec) :
    (skelL l).any q = l.any q := by
  rw [any_eq_firstIdx_isSome, any_eq_firstIdx_isSome, firstIdx_skelL q hq]

theorem skelL_length (l : List Rec) : (skelL l).length = l.length := by
  simp [skelL]

theorem skelL_applyStatusPatch (db : List Rec) (id st : Option String) (t : Nat) :
    skelL (applyStatusPatch db id st t) = skelL db :=
  skelL_updateFirst (pmatch id) (fun r => { r with status := st, updatedAt := t })
    (fun _ => rfl) db

theorem statusAt_touchUpdatedAt (q : Rec → Bool) (t : Nat) (db : List Rec) (i : Nat) :
    statusAt (updateFirst q (fun r => { r with updatedAt := t }) db) i = statusAt db i :=
  statusAt_updateFirst q (fun r => { r with updatedAt := t }) (fun _ => rfl) db i

/-- Correspondence between the writes of two ingest runs of the same
payload at different wall-clock times: patches are identical and upserts
carry documents with the same `msg_id` (only the time-derived fields of
the documents differ, and those are never read on a duplicate run). -/
inductive SimOp : Op → Op → Prop where
  | upsertM : ∀ d1 d2, d1.msg_id = d2.msg_id → SimOp (Op.upsertM d1) (Op.upsertM d2)
  | patchS : ∀ id st, SimOp (Op.patchS id st) (Op.patchS id st)

/-- The re-ingest simulation: if `Y` agrees with the final state of the
first run `runOps t1 X ops1` on all skeletons, and on statuses except
possibly on the prefix `X` still being rewritten, and no status patch of
the run is an orphan that would suddenly match on replay, then replaying
corresponding writes `ops2` over `Y` reproduces the first run's final
state up to `updatedAt`. Instantiated with `Y` equal to the first run's
final state, this is idempotence of ingest. -/
theorem runTwice_sim :
    ∀ {ops1 ops2 : List Op}, List.Forall₂ SimOp ops1 ops2 →
      ∀ (X Y : List Rec) (t1 t2 : Nat),
      noOrphan t1 X ops1 = true →
      skelL Y = skelL (runOps t1 X ops1) →
      (∀ i : Nat, statusAt Y i = statusAt (runOps t1 X ops1) i
        ∨ (i < X.length ∧ statusAt Y i = statusAt X i)) →
      eraseUL (runOps t2 Y ops2) = eraseUL (runOps t1 X ops1) := by
  intro ops1 ops2 hsim
  induction hsim with
  | nil =>
    intro X Y t1 t2 _ hg hf
    simp only [runOps] at hg hf ⊢
    refine eraseUL_eq_of Y X hg ?_
    intro i
    rcases hf i with h | ⟨_, h⟩ <;> exact h
  | cons hop htail ih =>
    rename_i o1 o2 r1 r2
    intro X Y t1 t2 hno hg hf
    cases hop with
    | patchS id st =>
      have hno2 : ((X.any (pmatch id)
          || !((runOps t1 (applyStatusPatch X id st t1) r1).any (pmatch id)))
          && noOrphan t1 (applyStatusPatch X id st t1) r1) = true := hno
      rw [Bool.and_eq_true] at hno2
      obtain ⟨hcond, hno'⟩ := hno2
      have hgA : skelL Y = skelL (runOps t1 (applyStatusPatch X id st t1) r1) := hg
      have hfA : ∀ i : Nat,
          statusAt Y i = statusAt (runOps t1 (applyStatusPatch X id st t1) r1) i
          ∨ (i < X.length ∧ statusAt Y i = statusAt X i) := hf
      show eraseUL (runOps t2 (applyStatusPatch Y id st t2) r2)
          = eraseUL (runOps t1 (applyStatusPatch X id st t1) r1)
      cases hX : firstIdx (pmatch id) X with
      | none =>
        have hXany : X.any (pmatch id) = false := (firstIdx_eq_none_iff _ X).1 hX
        have hX' : applyStatusPatch X id st t1 = X :=
          updateFirst_all_false _ _ X hXany
        have hAany : (runOps t1 (applyStatusPatch X id st t1) r1).any (pmatch id)
            = false := by
          rcases Bool.or_eq_true_iff.1 hcond with h | h
          · rw [hXany] at h
            cases h
          · simpa using h
        have hYany : Y.any (pmatch id) = false := by
          rw [any_skel_congr (pmatch id) (fun r => rfl) Y _ hgA]
          exact hAany
        have hY' : applyStatusPatch Y id st t2 = Y :=
          updateFirst_all_false _ _ Y hYany
        rw [hY', hX']
        rw [hX'] at hno' hgA hfA
        exact ih X Y t1 t2 hno' hgA hfA
      | some j =>
        have hjX : j < X.length := firstIdx_lt_length _ X j hX
        have hX'skel : skelL (applyStatusPatch X id st t1) = skelL X :=
          skelL_updateFirst (pmatch id)
            (fun r => { r with status := st, updatedAt := t1 }) (fun r => rfl) X
        have hX'len : (applyStatusPatch X id st t1).length = X.length :=
          updateFirst_length _ _ X
        obtain ⟨tail, htail2⟩ := skelL_runOps r1 t1 (applyStatusPatch X id st t1)
        have hAskel : skelL (runOps t1 (applyStatusPatch X id st t1) r1)
            = skelL X ++ tail := by rw [htail2, hX'skel]
        have hYfi : firstIdx (pmatch id) Y = some j := by
          rw [firstIdx_skel_congr (pmatch id) (fun r => rfl) Y _ hgA,
            ← firstIdx_skelL (pmatch id) (fun r => rfl), hAskel]
          refine firstIdx_append_left _ _ tail j ?_
          rw [firstIdx_skelL (pmatch id) (fun r => rfl) X]
          exact hX
        have hjY : j < Y.length := by
          have hlen : Y.length = X.length + tail.length := by
            have := congrArg List.length hgA
            rw [skelL_length, hAskel, List.length_append, skelL_length] at this
            exact this
          omega
        refine ih _ _ t1 t2 hno' ?_ ?_
        · rw [skelL_applyStatusPatch]
          exact hgA
        · intro i
          by_cases hij : i = j
          · subst hij
            refine Or.inr ⟨by rw [hX'len]; exact hjX, ?_⟩
            cases hy : Y[i]? with
            | none =>
              rw [List.getElem?_eq_none_iff] at hy
              omega
            | some y =>
              cases hx : X[i]? with
              | none =>
                rw [List.getElem?_eq_none_iff] at hx
                omega
              | some x =>
                unfold statusAt applyStatusPatch
                rw [getElem?_updateFirst_eq _ _ Y i hYfi,
                  getElem?_updateFirst_eq _ _ X i hX, hy, hx]
                rfl
          · have hY'st : statusAt (applyStatusPatch Y id st t2) i = statusAt Y i := by
              unfold statusAt applyStatusPatch
              rw [getElem?_updateFirst_ne _ _ Y j i hYfi hij]
            have hX'st : statusAt (applyStatusPatch X id st t1) i = statusAt X i := by
              unfold statusAt applyStatusPatch
              rw [getElem?_updateFirst_ne _ _ X j i hX hij]
            rcases hfA i with h | ⟨hlen, h⟩
            · exact Or.inl (by rw [hY'st]; exact h)
            · exact Or.inr ⟨by rw [hX'len]; exact hlen,
                by rw [hY'st, hX'st]; exact h⟩
    | upsertM d1 d2 hmsg =>
      have hno' : noOrphan t1 (upsertMessage X d1 t1) r1 = true := hno
      have hgA : skelL Y = skelL (runOps t1 (upsertMessage X d1 t1) r1) := hg
      have hfA : ∀ i : Nat,
          statusAt Y i = statusAt (runOps t1 (upsertMessage X d1 t1) r1) i
          ∨ (i < X.length ∧ statusAt Y i = statusAt X i) := hf
      show eraseUL (runOps t2 (upsertMessage Y d2 t2) r2)
          = eraseUL (runOps t1 (upsertMessage X d1 t1) r1)
      obtain ⟨tail, htail2⟩ := skelL_runOps r1 t1 (upsertMessage X d1 t1)
      cases hXany : X.any (matchUps d1.msg_id) with
      | true =>
        have hX' : upsertMessage X d1 t1
            = updateFirst (matchUps d1.msg_id) (fun r => { r with updatedAt := t1 }) X := by
          simp [upsertMessage, hXany]
        have hfiX0 : (firstIdx (matchUps d1.msg_id) X).isSome = true := by
          rw [← any_eq_firstIdx_isSome]
          exact hXany
        obtain ⟨j, hfiX⟩ := Option.isSome_iff_exists.1 hfiX0
        have hX'skel : skelL (upsertMessage X d1 t1) = skelL X := by
          rw [hX']
          exact skelL_updateFirst (matchUps d1.msg_id)
            (fun r => { r with updatedAt := t1 }) (fun r => rfl) X
        have hAskel : skelL (runOps t1 (upsertMessage X d1 t1) r1)
            = skelL X ++ tail := by rw [htail2, hX'skel]
        have hYfi : firstIdx (matchUps d2.msg_id) Y = some j := by
          rw [← hmsg,
            firstIdx_skel_congr (matchUps d1.msg_id) (fun r => rfl) Y _ hgA,
            ← firstIdx_skelL (matchUps d1.msg_id) (fun r => rfl), hAskel]
          refine firstIdx_append_left _ _ tail j ?_
          rw [firstIdx_skelL (matchUps d1.msg_id) (fun r => rfl) X]
          exact hfiX
        have hYany : Y.any (matchUps d2.msg_id) = true := by
          rw [any_eq_firstIdx_isSome, hYfi]
          rfl
        have hY' : upsertMessage Y d2 t2
            = updateFirst (matchUps d2.msg_id) (fun r => { r with updatedAt := t2 }) Y := by
          simp [upsertMessage, hYany]
        refine ih _ _ t1 t2 hno' ?_ ?_
        · rw [hY', skelL_updateFirst (matchUps d2.msg_id)
            (fun r => { r with updatedAt := t2 }) (fun r => rfl) Y]
          exact hgA
        · intro i
          have hYst : statusAt (upsertMessage Y d2 t2) i = statusAt Y i := by
            rw [hY']
            exact statusAt_touchUpdatedAt (matchUps d2.msg_id) t2 Y i
          have hXst : statusAt (upsertMessage X d1 t1) i = statusAt X i := by
            rw [hX']
            exact statusAt_touchUpdatedAt (matchUps d1.msg_id) t1 X i
          have hXlen : (upsertMessage X d1 t1).length = X.length := by
            rw [hX', updateFirst_length]
          rcases hfA i with h | ⟨hlen, h⟩
          · exact Or.inl (by rw [hYst]; exact h)
          · exact Or.inr ⟨by rw [hXlen]; exact hlen, by rw [hYst, hXst]; exact h⟩
      | false =>
        have hX' : upsertMessage X d1 t1 = X ++ [{ d1 with updatedAt := t1 }] := by
          simp [upsertMessage, hXany]
        have hAskel : skelL (runOps t1 (upsertMessage X d1 t1) r1)
            = skelL X ++ (skel { d1 with updatedAt := t1 } :: tail) := by
          rw [htail2, hX']
          simp [skelL]
        have hYfi : firstIdx (matchUps d2.msg_id) Y = some X.length := by
          rw [← hmsg,
            firstIdx_skel_congr (matchUps d1.msg_id) (fun r => rfl) Y _ hgA,
            ← firstIdx_skelL (matchUps d1.msg_id) (fun r => rfl), hAskel,
            firstIdx_append_of_none]
          · have hq : matchUps d1.msg_id (skel { d1 with updatedAt := t1 }) = true := by
              simp [matchUps, skel]
            simp [firstIdx, hq, skelL_length]
          · rw [any_skelL (matchUps d1.msg_id) (fun r => rfl) X]
            exact hXany
        have hYany : Y.any (matchUps d2.msg_id) = true := by
          rw [any_eq_firstIdx_isSome, hYfi]
          rfl
        have hY' : upsertMessage Y d2 t2
            = updateFirst (matchUps d2.msg_id) (fun r => { r with updatedAt := t2 }) Y := by
          simp [upsertMessage, hYany]
        refine ih _ _ t1 t2 hno' ?_ ?_
        · rw [hY', skelL_updateFirst (matchUps d2.msg_id)
            (fun r => { r with updatedAt := t2 }) (fun r => rfl) Y]
          exact hgA
        · intro i
          have hYst : statusAt (upsertMessage Y d2 t2) i = statusAt Y i := by
            rw [hY']
            exact statusAt_touchUpdatedAt (matchUps d2.msg_id) t2 Y i
          rcases hfA i with h | ⟨hlen, h⟩
          · exact Or.inl (by rw [hYst]; exact h)
          · refine Or.inr ⟨?_, ?_⟩
            · rw [hX']
              simp only [List.length_append, List.length_cons]
              omega
            · rw [hYst, hX', statusAt_append_left X _ i hlen]
              exact h

theorem simOp_refl : ∀ o : Op, SimOp o o
  | Op.upsertM d => SimOp.upsertM d d rfl
  | Op.patchS id st => SimOp.patchS id st

theorem simOps_self : ∀ ops : List Op, List.Forall₂ SimOp ops ops
  | [] => List.Forall₂.nil
  | o :: rest => List.Forall₂.cons (simOp_refl o) (simOps_self rest)

theorem simOps_append {l1 l2 l3 l4 : List Op}
    (h1 : List.Forall₂ SimOp l1 l3) (h2 : List.Forall₂ SimOp l2 l4) :
    List.Forall₂ SimOp (l1 ++ l2) (l3 ++ l4) := by
  induction h1 with
  | nil => exact h2
  | cons h _ ih => exact List.Forall₂.cons h ih

theorem simOps_map_upsert {β : Type} (f1 f2 : β → Rec)
    (h : ∀ m, (f1 m).msg_id = (f2 m).msg_id) :
    ∀ l : List β,
      List.Forall₂ SimOp (l.map fun m => Op.upsertM (f1 m))
        (l.map fun m => Op.upsertM (f2 m))
  | [] => List.Forall₂.nil
  | m :: rest =>
    List.Forall₂.cons (SimOp.upsertM _ _ (h m)) (simOps_map_upsert f1 f2 h rest)

theorem simOps_flatMap {β : Type} (g1 g2 : β → List Op)
    (h : ∀ b, List.Forall₂ SimOp (g1 b) (g2 b)) :
    ∀ l : List β, List.Forall₂ SimOp (l.flatMap g1) (l.flatMap g2)
  | [] => List.Forall₂.nil
  | b :: rest => by
    simp only [List.flatMap_cons]
    exact simOps_append (h b) (simOps_flatMap g1 g2 h rest)

theorem simOps_value (v : Value) (t1 t2 : Nat) :
    List.Forall₂ SimOp (opsOfValue v t1) (opsOfValue v t2) :=
  simOps_append
    (simOps_map_upsert (fun m => mkDocNested v m t1) (fun m => mkDocNested v m t2)
      (fun _ => rfl) _)
    (simOps_self _)

theorem simOps_payload (p : Payload) (biz : Option String) (t1 t2 : Nat) :
    List.Forall₂ SimOp (opsOfPayload p biz t1) (opsOfPayload p biz t2) := by
  unfold opsOfPayload
  cases (p.metaData.bind MetaDataObj.entry) <|> p.entry with
  | some entries =>
    exact simOps_flatMap _ _
      (fun e => simOps_flatMap _ _ (fun c => simOps_value _ t1 t2) (e.changes.getD []))
      entries
  | none =>
    exact simOps_append
      (simOps_map_upsert (fun m => mkDocFlat m biz t1) (fun m => mkDocFlat m biz t2)
        (fun _ => rfl) _)
      (simOps_self _)

theorem simOps_file (ps : List Payload) (biz : Option String) (t1 t2 : Nat) :
    List.Forall₂ SimOp (opsOfFile ps biz t1) (opsOfFile ps biz t2) :=
  simOps_flatMap _ _ (fun p => simOps_payload p biz t1 t2) ps

theorem msgIds_updateFirst (p : Rec → Bool) (f : Rec → Rec)
    (hf : ∀ r, (f r).msg_id = r.msg_id) :
    ∀ db : List Rec, (updateFirst p f db).map Rec.msg_id = db.map Rec.msg_id := by
  intro db
  induction db with
  | nil => rfl
  | cons r rest ih =>
    simp only [updateFirst]
    split
    · simp [hf]
    · simp only [List.map_cons]
      rw [ih]

theorem uniqueIds_applyOp (t : Nat) (db : List Rec) (o : Op)
    (h : (db.map Rec.msg_id).Pairwise (· ≠ ·)) :
    ((applyOp t db o).map Rec.msg_id).Pairwise (· ≠ ·) := by
  cases o with
  | patchS id st =>
    rw [show (applyOp t db (Op.patchS id st)).map Rec.msg_id = db.map Rec.msg_id from
      msgIds_updateFirst (pmatch id) (fun r => { r with status := st, updatedAt := t })
        (fun _ => rfl) db]
    exact h
  | upsertM doc =>
    by_cases hany : db.any (matchUps doc.msg_id) = true
    · rw [show (applyOp t db (Op.upsertM doc)).map Rec.msg_id = db.map Rec.msg_id from ?_]
      · exact h
      · show (upsertMessage db doc t).map Rec.msg_id = db.map Rec.msg_id
        rw [show upsertMessage db doc t
            = updateFirst (matchUps doc.msg_id) (fun r => { r with updatedAt := t }) db by
          simp [upsertMessage, hany]]
        exact msgIds_updateFirst (matchUps doc.msg_id)
          (fun r => { r with updatedAt := t }) (fun _ => rfl) db
    · have h2 : upsertMessage db doc t = db ++ [{ doc with updatedAt := t }] := by
        simp only [upsertMessage]
        rw [if_neg hany]
      show ((upsertMessage db doc t).map Rec.msg_id).Pairwise (· ≠ ·)
      rw [h2, List.map_append]
      rw [List.pairwise_append]
      refine ⟨h, by simp, ?_⟩
      intro a ha b hb
      simp only [List.map_cons, List.map_nil, List.mem_singleton] at hb
      obtain ⟨r, hr, hra⟩ := List.mem_map.1 ha
      subst hb
      subst hra
      have h3 : matchUps doc.msg_id r = false := by
        have hfalse : db.any (matchUps doc.msg_id) = false := Bool.eq_false_iff.2 hany
        exact Bool.eq_false_iff.2 (List.any_eq_false.1 hfalse r hr)
      simpa [matchUps] using h3

theorem uniqueIds_runOps (t : Nat) :
    ∀ (ops : List Op) (db : List Rec),
      (db.map Rec.msg_id).Pairwise (· ≠ ·) →
      ((runOps t db ops).map Rec.msg_id).Pairwise (· ≠ ·) := by
  intro ops
  induction ops with
  | nil => intro db h; exact h
  | cons o rest ih =>
    intro db h
    exact ih (applyOp t db o) (uniqueIds_applyOp t db o h)

/-! ### C1 — idempotence of ingest -/

/-- A status item targeting message `m1`. -/
def sM1read : StatusItem := { id := some "m1", meta_msg_id := none, status := some "read" }

/-- A raw message `m1`. -/
def mM1 : Msg :=
  { from_ := some "111", id := some "m1", timestamp := some "1000",
    text := some { body := some "hi" }, body := none, to_ := none, context := none }

/-- A flat payload carrying only the status item for `m1`. -/
def pStatusOnly : Payload :=
  { metaData := none, entry := none, messages := none, statuses := some [sM1read] }

/-- A flat payload carrying only the message `m1`. -/
def pMsgOnly : Payload :=
  { metaData := none, entry := none, messages := some [mM1], statuses := none }

/-- A payload file in which the status for `m1` is processed before the
message `m1` itself. -/
def fileStatusFirst : List Payload := [pStatusOnly, pMsgOnly]

/-- A payload whose status item follows its own message. -/
def pMsgThenStatus : Payload :=
  { metaData := none, entry := none, messages := some [mM1], statuses := some [sM1read] }

/-- C1 counterexample: ingesting `fileStatusFirst` once leaves `m1` with
status `received` (the patch was an orphan no-op); ingesting it a second
time replays the formerly-orphaned patch, which now matches, and flips
the status to `read` — the store differs beyond `updated_at`, so ingest
is not idempotent for every payload. -/
theorem C1_counterexample :
    eraseUL (ingestFile (ingestFile [] fileStatusFirst (some "biz") 1)
        fileStatusFirst (some "biz") 2)
      ≠ eraseUL (ingestFile [] fileStatusFirst (some "biz") 1) := by
  decide

/-- C1 amended: for every payload file none of whose status patches is an
orphan that would suddenly match on replay (each patch matches a document
when first applied, or still matches nothing in the final store),
re-ingesting the file changes nothing but `updatedAt`: a duplicate upsert
refreshes only `updatedAt`, no duplicate document is created, and — given
the `msg_id` uniqueness invariant on the initial store — at most one
document per `msg_id` exists afterwards. -/
theorem C1_idempotent_amended :
    ∀ (ps : List Payload) (biz : Option String) (db : List Rec) (t1 t2 : Nat),
      noOrphan t1 db (opsOfFile ps biz t1) = true →
      (db.map Rec.msg_id).Pairwise (· ≠ ·) →
      eraseUL (ingestFile (ingestFile db ps biz t1) ps biz t2)
          = eraseUL (ingestFile db ps biz t1)
      ∧ ((ingestFile db ps biz t1).map Rec.msg_id).Pairwise (· ≠ ·) := by
  intro ps biz db t1 t2 hno hu
  constructor
  · exact runTwice_sim (simOps_file ps biz t1 t2) db (ingestFile db ps biz t1) t1 t2
      hno rfl (fun i => Or.inl rfl)
  · exact uniqueIds_runOps t1 (opsOfFile ps biz t1) db hu

/-- C1 witness: the message `m1` followed by its own status patch is
re-ingested without changing anything but `updatedAt`. -/
theorem C1_witness :
    noOrphan 1 [] (opsOfFile [pMsgThenStatus] (some "biz") 1) = true
    ∧ (([] : List Rec).map Rec.msg_id).Pairwise (· ≠ ·)
    ∧ (eraseUL (ingestFile (ingestFile [] [pMsgThenStatus] (some "biz") 1)
          [pMsgThenStatus] (some "biz") 2)
        = eraseUL (ingestFile [] [pMsgThenStatus] (some "biz") 1)
      ∧ ((ingestFile [] [pMsgThenStatus] (some "biz") 1).map Rec.msg_id).Pairwise (· ≠ ·)) :=
  ⟨by decide, by exact List.Pairwise.nil,
   C1_idempotent_amended [pMsgThenStatus] (some "biz") [] 1 2 (by decide)
     (by exact List.Pairwise.nil)⟩
